import Mathlib

/-!
Verification of the stdin/stdout LLM worker process (`llm_server_py.py`).

The development shallowly embeds the command-protocol and
generation-orchestration layer of the server:

* the conversation builder of `LLMServer.generate` (system message choice,
  positional role parity over `history`, final user message);
* the response extractor (`response.split("assistant\n")[-1].strip()` chain);
* the lifecycle state of `LLMServer.load_model` (tokenizer/model handles,
  device choice), with every external `transformers`/`torch` call treated as
  an oracle that either returns normally or raises;
* the per-line protocol loop of `main` (JSON decode outcomes, dispatch on
  the `command` field, emitted responses, the `continue`/`break` behaviour).

Pure Python string/list manipulation is translated directly; opaque calls
into the inference backend are parameters of the embedding (their outcomes
ride along with each input line as an `Oracle`).
-/

/-- Chat roles, as used in the message dicts built by `LLMServer.generate`. -/
inductive Role where
  | system
  | user
  | assistant
  deriving DecidableEq, Repr

/-- One `{"role": ..., "content": ...}` message dict. -/
structure Message where
  role : Role
  content : String
  deriving DecidableEq, Repr

/-- The default persona system message content (the `else` branch at line 82). -/
def defaultSystemContent : String :=
  "You are Qwen, created by Alibaba Cloud. You are a helpful assistant."

/-- The translation system message content (line 79), an f-string over
`target_lang`. -/
def translationContent (target_lang : String) : String :=
  "You are a helpful assistant that translates text to " ++ target_lang ++
    ". Continue the conversation without explanation."

/-- The system message appended first by `LLMServer.generate` (lines 77-82).
`if target_lang:` is Python truthiness on an optional string: `None` and the
empty string are falsy. -/
def systemMessage (target_lang : Option String) : Message :=
  match target_lang with
  | some lang =>
    if lang.isEmpty then ⟨Role.system, defaultSystemContent⟩
    else ⟨Role.system, translationContent lang⟩
  | none => ⟨Role.system, defaultSystemContent⟩

/-- The `for i, msg in enumerate(history)` loop of lines 86-88, started at
index `i`: role `user` for even indices, `assistant` for odd ones. -/
def historyMessages (i : Nat) : List String → List Message
  | [] => []
  | msg :: rest =>
    ⟨if i % 2 = 0 then Role.user else Role.assistant, msg⟩ ::
      historyMessages (i + 1) rest

/-- The conversation list built by `LLMServer.generate` lines 74-91: system
message, then the history messages (guarded by Python truthiness of
`history`, which skips `None` and `[]`), then `{"role": "user", "content":
prompt}`. -/
def buildMessages (prompt : String) (target_lang : Option String)
    (history : Option (List String)) : List Message :=
  [systemMessage target_lang] ++
    (match history with
     | some h => if h.isEmpty then [] else historyMessages 0 h
     | none => []) ++
    [⟨Role.user, prompt⟩]

/-- Python substring membership `sep in s`, by scanning for a position where
`sep` is a prefix of the remaining text. -/
def occursIn (sep : List Char) : List Char → Bool
  | [] => sep.isEmpty
  | c :: rest => sep.isPrefixOf (c :: rest) || occursIn sep rest

/-- The text after the leftmost occurrence of `sep`, if any. -/
def afterFirst (sep : List Char) : List Char → Option (List Char)
  | [] => none
  | c :: rest =>
    if sep.isPrefixOf (c :: rest) then some ((c :: rest).drop sep.length)
    else afterFirst sep rest

/-- The text after the rightmost occurrence of `sep`, if any (occurrences
starting later in the string are preferred). -/
def afterLast (sep : List Char) : List Char → Option (List Char)
  | [] => none
  | c :: rest =>
    match afterLast sep rest with
    | some t => some t
    | none =>
      if sep.isPrefixOf (c :: rest) then some ((c :: rest).drop sep.length)
      else none

/-- Fuel-driven computation of the final chunk of Python's
`s.split(sep)[-1]`: repeatedly jump past the leftmost match; the remainder
once no match is left is the last chunk.  Each jump consumes at least one
character when `sep` is nonempty, so `s.length` fuel suffices. -/
def splitLastFuel (sep : List Char) : Nat → List Char → List Char
  | 0, s => s
  | Nat.succ fuel, s =>
    match afterFirst sep s with
    | none => s
    | some t => splitLastFuel sep fuel t

/-- Python `s.split(sep)[-1]` for nonempty `sep` (the only way the source
uses it; Python raises on an empty separator). -/
def splitLast (sep s : List Char) : List Char := splitLastFuel sep s.length s

/-- ASCII whitespace as stripped by Python's `str.strip()`. -/
def isPySpace (c : Char) : Bool :=
  c == ' ' || c == '\t' || c == '\n' || c == '\r' || c == '\x0b' || c == '\x0c'

/-- Python `s.strip()`: drop leading and trailing whitespace. -/
def strip (s : List Char) : List Char :=
  ((s.dropWhile isPySpace).reverse.dropWhile isPySpace).reverse

/-- The marker `"assistant\n"` searched first by the extractor (line 118). -/
def sepAN : List Char := "assistant\n".data

/-- The fallback marker `"assistant"` (line 120). -/
def sepA : List Char := "assistant".data

/-- The response extractor of `LLMServer.generate` lines 116-123:
`split("assistant\n")[-1].strip()` if that marker occurs, else
`split("assistant")[-1].strip()` if that occurs, else the text unchanged. -/
def extractResponse (response : List Char) : List Char :=
  if occursIn sepAN response then strip (splitLast sepAN response)
  else if occursIn sepA response then strip (splitLast sepA response)
  else response

/-- Modelled from the spec's wording of the extraction policy: everything
after the LAST occurrence of `"assistant\n"` trimmed, else everything after
the last occurrence of `"assistant"` trimmed, else the text untouched.  Used
to compare the split-based source code against the stated policy. -/
def extractSpec (t : List Char) : List Char :=
  match afterLast sepAN t with
  | some r => strip r
  | none =>
    match afterLast sepA t with
    | some r => strip r
    | none => t

/-- The call parameters handed to the model backend for one generation:
the structured messages, `add_generation_prompt=True` for the chat template,
and the `model.generate` keyword arguments (lines 94-111). -/
structure GenCall where
  messages : List Message
  add_generation_prompt : Bool
  max_new_tokens : Int
  temperature : ℚ
  do_sample : Bool
  deriving DecidableEq, Repr

/-- Outcome of a fallible Python call: either a raised exception carrying
its message, or a returned value. -/
inductive PyResult (α : Type) where
  | raised (msg : String)
  | ok (val : α)
  deriving DecidableEq, Repr

/-- `LLMServer.generate` (lines 71-127).  The chain of opaque backend steps
(chat templating, tokenization, `model.generate`, decoding) is summarized by
`backend`: either the decoded full text or the message of a raised
exception, which `generate` re-raises after logging.  The returned `GenCall`
records the parameters of the attempted backend invocation; in particular
`do_sample = True if temperature > 0 else False` (line 109). -/
def generate (prompt : String) (target_lang : Option String)
    (history : Option (List String)) (max_new_tokens : Int) (temperature : ℚ)
    (backend : PyResult String) : PyResult String × GenCall :=
  let messages := buildMessages prompt target_lang history
  let call : GenCall :=
    ⟨messages, true, max_new_tokens, temperature, decide (0 < temperature)⟩
  match backend with
  | PyResult.raised e => (PyResult.raised e, call)
  | PyResult.ok decoded =>
    (PyResult.ok (String.mk (extractResponse decoded.data)), call)

/-- Compute device selected by `load_model` (lines 40-45). -/
inductive Device where
  | cuda
  | cpu
  deriving DecidableEq, Repr

/-- The mutable fields of an `LLMServer` object.  `model` and `tokenizer`
track whether the Python attributes are non-`None` (their concrete values
are opaque backend objects). -/
structure ServerState where
  model_id : String
  use_cache : Bool
  model : Bool
  tokenizer : Bool
  device : Option Device
  deriving DecidableEq, Repr

/-- `LLMServer.__init__` (lines 26-32): both handles start as `None`. -/
def serverInit (model_id : String) (use_cache : Bool) : ServerState :=
  ⟨model_id, use_cache, false, false, none⟩

/-- Outcomes of the external calls a single input line may trigger:
whether `torch.cuda.is_available()` holds, whether each of the three
loading steps of `load_model` raises, and the decoded text (or raised
message) of the generation backend chain. -/
structure Oracle where
  cudaAvailable : Bool
  tokRaises : Bool
  modelRaises : Bool
  toRaises : Bool
  genResult : PyResult String
  deriving DecidableEq, Repr

/-- `LLMServer.load_model` (lines 34-69).  The device is picked, then the
tokenizer and the model are loaded in order; each `from_pretrained` either
raises (leaving the attribute at its previous value) or assigns a
non-`None` object.  On the CPU path the freshly assigned model is then
moved with `.to(device)`, which may itself raise — after the model
attribute has already been set.  Any raise is caught and `False` is
returned; otherwise `True`. -/
def load_model (st : ServerState) (o : Oracle) : ServerState × Bool :=
  let device := if o.cudaAvailable then Device.cuda else Device.cpu
  let st := { st with device := some device }
  if o.tokRaises then (st, false)
  else
    let st := { st with tokenizer := true }
    if o.modelRaises then (st, false)
    else
      let st := { st with model := true }
      if device = Device.cpu then
        if o.toRaises then (st, false) else (st, true)
      else (st, true)

/-- A `generate` request dict as read by `main` (lines 192-196); every field
is optional and `request.get` supplies the defaults. -/
structure Request where
  command : Option String
  prompt : Option String
  target_lang : Option String
  history : Option (List String)
  max_tokens : Option Int
  temperature : Option ℚ
  deriving DecidableEq, Repr

/-- One line of stdin, after Python's JSON parsing has run:
* `emptyLine`: the stripped line was empty (silently skipped);
* `badJson`: `json.loads` raised `JSONDecodeError` with the given details;
* `nonObjectJson`: `json.loads` succeeded but produced a non-dict value, so
  `request.get("command")` raises `AttributeError` with the given message
  (e.g. `'list' object has no attribute 'get'`), caught by the generic
  `except Exception` handler;
* `request`: a dict, with the outcomes of any external calls it triggers. -/
inductive LineInput where
  | emptyLine
  | badJson (details : String)
  | nonObjectJson (attrError : String)
  | request (req : Request) (o : Oracle)
  deriving DecidableEq, Repr

/-- The JSON objects `main` prints, one per processed line. -/
inductive Response where
  | errorMsg (msg : String)
  | status (s : String)
  | testResp (model_loaded : Bool)
  | textResp (text : String)
  deriving DecidableEq, Repr

/-- Invocations of the external backend made while processing a line. -/
inductive Call where
  | load
  | gen (c : GenCall)
  deriving DecidableEq, Repr

/-- Result of processing one input line: the new server state, the emitted
response lines, the backend invocations made, and whether the loop breaks
(only the `shutdown` command sets `stop`). -/
structure StepResult where
  state : ServerState
  output : List Response
  calls : List Call
  stop : Bool
  deriving DecidableEq, Repr

/-- The body of the `for line in sys.stdin` loop of `main` (lines 171-234):
dispatch on the `command` field, short-circuit `generate` when the model is
`None`, report `JSONDecodeError` as `Invalid JSON: ...` and every other
exception generically, and keep looping except on `shutdown`. -/
def processLine (st : ServerState) (l : LineInput) : StepResult :=
  match l with
  | LineInput.emptyLine => ⟨st, [], [], false⟩
  | LineInput.badJson d =>
    ⟨st, [Response.errorMsg ("Invalid JSON: " ++ d)], [], false⟩
  | LineInput.nonObjectJson m => ⟨st, [Response.errorMsg m], [], false⟩
  | LineInput.request req o =>
    if req.command = some "load_model" then
      let r := load_model st o
      ⟨r.1, [Response.status (if r.2 then "loaded" else "failed")],
        [Call.load], false⟩
    else if req.command = some "generate" then
      if st.model = false then
        ⟨st, [Response.errorMsg "Model not loaded"], [], false⟩
      else
        let r := generate (req.prompt.getD "") req.target_lang
          (some (req.history.getD [])) (req.max_tokens.getD 128)
          (req.temperature.getD (7 / 10)) o.genResult
        match r.1 with
        | PyResult.ok text => ⟨st, [Response.textResp text], [Call.gen r.2], false⟩
        | PyResult.raised msg => ⟨st, [Response.errorMsg msg], [Call.gen r.2], false⟩
    else if req.command = some "test" then
      ⟨st, [Response.testResp st.model], [], false⟩
    else if req.command = some "shutdown" then
      ⟨st, [], [], true⟩
    else
      ⟨st, [Response.errorMsg ("Unknown command: " ++
        (match req.command with | some c => c | none => "None"))], [], false⟩

/-- Run the protocol loop over a list of input lines, stopping early when a
line sets `stop` (the `shutdown` command's `break`). -/
def runLoop (st : ServerState) : List LineInput → ServerState × List Response
  | [] => (st, [])
  | l :: rest =>
    let r := processLine st l
    if r.stop then (r.state, r.output)
    else
      let k := runLoop r.state rest
      (k.1, r.output ++ k.2)

/-- A load attempt that gets past both `from_pretrained` calls assigns the
model attribute, whatever the `.to(device)` step then does. -/
def assignsModel : LineInput → Bool
  | LineInput.request req o =>
    req.command == some "load_model" && !o.tokRaises && !o.modelRaises
  | _ => false

/-- Whether a line is a `shutdown` command (the only loop-breaking line). -/
def isShutdownLine : LineInput → Bool
  | LineInput.request req _ => req.command == some "shutdown"
  | _ => false

/-- `sep` cannot overlap a shifted copy of itself: no proper nonempty suffix
of `sep` is a prefix of `sep`.  Both split markers of the extractor satisfy
this, which is what makes the greedy left-to-right scan of `str.split` find
the rightmost occurrence. -/
def noSelfOverlap (sep : List Char) : Prop :=
  ∀ d, d < sep.length → 0 < d → (sep.drop d).isPrefixOf sep = false

/-- Substring membership succeeds exactly when a leftmost match exists. -/
theorem occursIn_eq_afterFirst_isSome (sep : List Char) (hsep : sep ≠ []) :
    ∀ s, occursIn sep s = (afterFirst sep s).isSome := by
  intro s
  induction s with
  | nil => simp [occursIn, afterFirst, List.isEmpty_iff, hsep]
  | cons c rest ih =>
    simp only [occursIn, afterFirst]
    cases hp : sep.isPrefixOf (c :: rest) with
    | false => simp [ih]
    | true => simp

/-- Substring membership succeeds exactly when a rightmost match exists. -/
theorem occursIn_eq_afterLast_isSome (sep : List Char) (hsep : sep ≠ []) :
    ∀ s, occursIn sep s = (afterLast sep s).isSome := by
  intro s
  induction s with
  | nil => simp [occursIn, afterLast, List.isEmpty_iff, hsep]
  | cons c rest ih =>
    simp only [occursIn, afterLast]
    cases hal : afterLast sep rest with
    | some t =>
      rw [hal] at ih
      simp at ih
      simp [ih]
    | none =>
      rw [hal] at ih
      simp at ih
      cases hp : sep.isPrefixOf (c :: rest) with
      | false => simp [ih]
      | true => simp

/-- Jumping past the leftmost match strictly shrinks the text. -/
theorem afterFirst_length (sep : List Char) (hsep : sep ≠ []) :
    ∀ s t, afterFirst sep s = some t → t.length < s.length := by
  intro s
  induction s with
  | nil => intro t h; simp [afterFirst] at h
  | cons c rest ih =>
    intro t h
    simp only [afterFirst] at h
    cases hp : sep.isPrefixOf (c :: rest) with
    | false =>
      rw [hp] at h
      simp at h
      exact Nat.lt_trans (ih t h) (by simp)
    | true =>
      rw [hp] at h
      simp at h
      have hlen : t.length = (c :: rest).length - sep.length := by
        rw [← h, List.length_drop]
      have hpos : 0 < sep.length := List.length_pos.mpr hsep
      simp only [List.length_cons] at hlen ⊢
      omega

/-- `splitLastFuel` ignores the empty text, whatever the fuel. -/
theorem splitLastFuel_nil (sep : List Char) :
    ∀ fuel, splitLastFuel sep fuel [] = [] := by
  intro fuel
  cases fuel with
  | zero => rfl
  | succ m => simp [splitLastFuel, afterFirst]

/-- Any fuel at least the length of the text computes the same final chunk. -/
theorem splitLastFuel_congr (sep : List Char) (hsep : sep ≠ []) :
    ∀ fuel fuel' s, s.length ≤ fuel → s.length ≤ fuel' →
      splitLastFuel sep fuel s = splitLastFuel sep fuel' s := by
  intro fuel
  induction fuel with
  | zero =>
    intro fuel' s hf hf'
    have : s = [] := List.length_eq_zero.mp (Nat.le_zero.mp hf)
    subst this
    rw [splitLastFuel_nil, splitLastFuel_nil]
  | succ m ih =>
    intro fuel' s hf hf'
    cases s with
    | nil => rw [splitLastFuel_nil, splitLastFuel_nil]
    | cons c rest =>
      have hf'pos : 0 < fuel' := by
        have := hf'
        simp only [List.length_cons] at this
        omega
      obtain ⟨f', rfl⟩ : ∃ f', fuel' = f' + 1 :=
        ⟨fuel' - 1, by omega⟩
      simp only [splitLastFuel]
      cases haf : afterFirst sep (c :: rest) with
      | none => rfl
      | some t =>
        have hlt := afterFirst_length sep hsep (c :: rest) t haf
        simp only [List.length_cons] at hf hf' hlt
        exact ih f' t (by omega) (by omega)

/-- If no match exists, the last chunk is the whole text. -/
theorem splitLast_of_afterFirst_none (sep s : List Char)
    (h : afterFirst sep s = none) : splitLast sep s = s := by
  cases s with
  | nil => rfl
  | cons c rest =>
    simp only [splitLast, List.length_cons, splitLastFuel, h]

/-- Jumping past the leftmost match preserves the last chunk. -/
theorem splitLast_of_afterFirst_some (sep : List Char) (hsep : sep ≠ [])
    (s t : List Char) (h : afterFirst sep s = some t) :
    splitLast sep s = splitLast sep t := by
  cases s with
  | nil => simp [afterFirst] at h
  | cons c rest =>
    have hlt := afterFirst_length sep hsep (c :: rest) t h
    simp only [List.length_cons] at hlt
    simp only [splitLast, List.length_cons, splitLastFuel, h]
    exact splitLastFuel_congr sep hsep rest.length t.length t (by omega) le_rfl

/-- A proper nonempty suffix of a non-self-overlapping `sep` is never a
prefix of `sep`. -/
theorem noSelfOverlap_suffix (sep : List Char) (hns : noSelfOverlap sep)
    (x : List Char) (hsuf : x <:+ sep) (hne : x ≠ [])
    (hlt : x.length < sep.length) : x.isPrefixOf sep = false := by
  obtain ⟨a, ha⟩ := hsuf
  have hx : sep.drop a.length = x := by
    rw [← ha]
    exact List.drop_left a x
  have hlens : sep.length = a.length + x.length := by
    rw [← ha, List.length_append]
  have hd1 : 0 < a.length := by omega
  have hd2 : a.length < sep.length := by
    have hxpos : 0 < x.length := List.length_pos.mpr hne
    omega
  rw [← hx]
  exact hns a.length hd2 hd1

/-- Scanning text that starts with a proper suffix of a non-self-overlapping
`sep` cannot match `sep` at the very front. -/
theorem not_prefixOf_suffix_append (sep : List Char) (hns : noSelfOverlap sep)
    (t x : List Char) (hsuf : x <:+ sep) (hne : x ≠ [])
    (hlt : x.length < sep.length) : sep.isPrefixOf (x ++ t) = false := by
  cases hp : sep.isPrefixOf (x ++ t) with
  | false => rfl
  | true =>
    exfalso
    have hpfx : sep <+: x ++ t := List.isPrefixOf_iff_prefix.mp hp
    have hxp : x <+: x ++ t := ⟨t, rfl⟩
    have hxs : x <+: sep :=
      List.prefix_of_prefix_length_le hxp hpfx (Nat.le_of_lt hlt)
    have hfalse := noSelfOverlap_suffix sep hns x hsuf hne hlt
    rw [List.isPrefixOf_iff_prefix.mpr hxs] at hfalse
    exact Bool.noConfusion hfalse

/-- Unfolding equation for `afterLast` on a nonempty text. -/
theorem afterLast_cons (sep : List Char) (c : Char) (rest : List Char) :
    afterLast sep (c :: rest) =
      (afterLast sep rest).or
        (if sep.isPrefixOf (c :: rest) then
          some ((c :: rest).drop sep.length) else none) := by
  simp only [afterLast]
  cases afterLast sep rest with
  | some t => rfl
  | none => simp [Option.or]

/-- Dropping a proper suffix of a non-self-overlapping `sep` from the front
of the scanned text does not change the rightmost match: no occurrence of
`sep` can start inside that suffix. -/
theorem afterLast_suffix_append (sep : List Char) (hns : noSelfOverlap sep)
    (t : List Char) :
    ∀ x, x <:+ sep → x.length < sep.length →
      afterLast sep (x ++ t) = afterLast sep t := by
  intro x
  induction x with
  | nil => simp
  | cons c x' ih =>
    intro hsuf hlt
    have hsuf' : x' <:+ sep := List.IsSuffix.trans ⟨[c], rfl⟩ hsuf
    have hlt' : x'.length < sep.length := by
      simp only [List.length_cons] at hlt
      omega
    have hp : sep.isPrefixOf ((c :: x') ++ t) = false :=
      not_prefixOf_suffix_append sep hns t (c :: x') hsuf
        (List.cons_ne_nil c x') hlt
    have ihe := ih hsuf' hlt'
    rw [List.cons_append] at hp
    rw [List.cons_append, afterLast_cons, ihe]
    simp [hp]

/-- After jumping past the leftmost match, the rightmost match of the whole
text is the rightmost match of the remainder — or, if the remainder has
none, the leftmost match itself was rightmost. -/
theorem afterLast_of_afterFirst (sep : List Char) (hsep : sep ≠ [])
    (hns : noSelfOverlap sep) :
    ∀ s t, afterFirst sep s = some t →
      afterLast sep s = (afterLast sep t).or (some t) := by
  intro s
  induction s with
  | nil => intro t h; simp [afterFirst] at h
  | cons c rest ih =>
    intro t h
    simp only [afterFirst] at h
    cases hp : sep.isPrefixOf (c :: rest) with
    | false =>
      rw [hp] at h
      simp at h
      have ihe := ih t h
      rw [afterLast_cons, ihe, hp]
      simp [Option.or_assoc]
    | true =>
      rw [hp] at h
      simp at h
      obtain ⟨u, hu⟩ := List.isPrefixOf_iff_prefix.mp hp
      have ht : t = u := by
        rw [← h, ← hu, List.drop_left]
      subst ht
      have hform : c :: rest = sep ++ t := hu.symm
      rw [hform]
      obtain ⟨a, sep', hseq⟩ := List.exists_cons_of_ne_nil hsep
      have hshape : sep ++ t = a :: (sep' ++ t) := by
        rw [hseq, List.cons_append]
      rw [hshape]
      have hsuf' : sep' <:+ sep := by
        rw [hseq]
        exact ⟨[a], rfl⟩
      have hlt' : sep'.length < sep.length := by
        rw [hseq, List.length_cons]
        omega
      have hinner : afterLast sep (sep' ++ t) = afterLast sep t :=
        afterLast_suffix_append sep hns t sep' hsuf' hlt'
      have hpfx : sep.isPrefixOf (a :: (sep' ++ t)) = true := by
        rw [← hshape]
        exact List.isPrefixOf_iff_prefix.mpr ⟨t, rfl⟩
      have hdrop : (a :: (sep' ++ t)).drop sep.length = t := by
        rw [← hshape, List.drop_left]
      rw [afterLast_cons, hinner, hpfx]
      simp [hdrop]

/-- For a nonempty, non-self-overlapping separator, the greedy last chunk of
`str.split` is exactly the text after the rightmost occurrence. -/
theorem splitLast_eq_afterLast (sep : List Char) (hsep : sep ≠ [])
    (hns : noSelfOverlap sep) :
    ∀ n s r, s.length ≤ n → afterLast sep s = some r → splitLast sep s = r := by
  intro n
  induction n with
  | zero =>
    intro s r hlen hal
    have : s = [] := List.length_eq_zero.mp (Nat.le_zero.mp hlen)
    subst this
    simp [afterLast] at hal
  | succ m ih =>
    intro s r hlen hal
    have hocc : occursIn sep s = true := by
      rw [occursIn_eq_afterLast_isSome sep hsep, hal]
      rfl
    have hocc' : (afterFirst sep s).isSome = true := by
      rw [← occursIn_eq_afterFirst_isSome sep hsep]
      exact hocc
    obtain ⟨t, hf⟩ := Option.isSome_iff_exists.mp hocc'
    have hlt : t.length < s.length := afterFirst_length sep hsep s t hf
    have hsl : splitLast sep s = splitLast sep t :=
      splitLast_of_afterFirst_some sep hsep s t hf
    have hcr := afterLast_of_afterFirst sep hsep hns s t hf
    cases hat : afterLast sep t with
    | some r' =>
      have hrec : splitLast sep t = r' := ih t r' (by omega) hat
      rw [hcr, hat] at hal
      simp [Option.or] at hal
      rw [hsl, hrec, hal]
    | none =>
      have hnt : afterFirst sep t = none := by
        have h1 : occursIn sep t = false := by
          rw [occursIn_eq_afterLast_isSome sep hsep, hat]
          rfl
        rw [occursIn_eq_afterFirst_isSome sep hsep] at h1
        exact Option.not_isSome_iff_eq_none.mp (by simp [h1])
      have hrec : splitLast sep t = t := splitLast_of_afterFirst_none sep t hnt
      rw [hcr, hat] at hal
      simp [Option.or] at hal
      rw [hsl, hrec, hal]

/-- C2: the response extractor returns everything after the last occurrence
of the literal `"assistant\n"` trimmed if that substring occurs; otherwise
everything after the last occurrence of `"assistant"` trimmed if that
occurs; otherwise the full decoded text unchanged and untrimmed — and in
particular a text ending in `"assistant\nHello there"` yields
`"Hello there"`. -/
theorem c2_extractor_matches_last_occurrence_policy :
    (∀ t : List Char, extractResponse t = extractSpec t) ∧
      extractResponse ("user\nHi!\nassistant\nHello there").data =
        ("Hello there").data := by
  constructor
  · intro t
    have hAN : sepAN ≠ [] := by decide
    have hA : sepA ≠ [] := by decide
    have nAN : noSelfOverlap sepAN := by unfold noSelfOverlap; decide
    have nA : noSelfOverlap sepA := by unfold noSelfOverlap; decide
    unfold extractResponse extractSpec
    cases h1 : occursIn sepAN t with
    | true =>
      have h1' : (afterLast sepAN t).isSome = true := by
        rw [← occursIn_eq_afterLast_isSome sepAN hAN]
        exact h1
      obtain ⟨r, hr⟩ := Option.isSome_iff_exists.mp h1'
      have hs := splitLast_eq_afterLast sepAN hAN nAN t.length t r le_rfl hr
      rw [hr, hs]
      simp
    | false =>
      have h1' : afterLast sepAN t = none := by
        have : (afterLast sepAN t).isSome = false := by
          rw [← occursIn_eq_afterLast_isSome sepAN hAN]
          exact h1
        exact Option.not_isSome_iff_eq_none.mp (by simp [this])
      rw [h1']
      cases h2 : occursIn sepA t with
      | true =>
        have h2' : (afterLast sepA t).isSome = true := by
          rw [← occursIn_eq_afterLast_isSome sepA hA]
          exact h2
        obtain ⟨r, hr⟩ := Option.isSome_iff_exists.mp h2'
        have hs := splitLast_eq_afterLast sepA hA nA t.length t r le_rfl hr
        rw [hr, hs]
        simp
      | false =>
        have h2' : afterLast sepA t = none := by
          have : (afterLast sepA t).isSome = false := by
            rw [← occursIn_eq_afterLast_isSome sepA hA]
            exact h2
          exact Option.not_isSome_iff_eq_none.mp (by simp [this])
        rw [h2']
        simp
  · decide

/-- The enumerate loop yields one message per history element. -/
theorem historyMessages_length :
    ∀ (h : List String) (i : Nat), (historyMessages i h).length = h.length := by
  intro h
  induction h with
  | nil => intro i; rfl
  | cons msg rest ih =>
    intro i
    simp [historyMessages, ih]

/-- Positional characterization of the enumerate loop: the `j`-th produced
message wraps the `j`-th history element with the parity role for `i + j`. -/
theorem historyMessages_getElem? :
    ∀ (h : List String) (i j : Nat),
      (historyMessages i h)[j]? = (h[j]?).map
        (fun m => ⟨if (i + j) % 2 = 0 then Role.user else Role.assistant, m⟩) := by
  intro h
  induction h with
  | nil => intro i j; simp [historyMessages]
  | cons msg rest ih =>
    intro i j
    cases j with
    | zero => simp [historyMessages]
    | succ j' =>
      simp only [historyMessages, List.getElem?_cons_succ]
      rw [ih (i + 1) j']
      have harith : i + 1 + j' = i + (j' + 1) := by omega
      rw [harith]

/-- Every message produced from history carries a `user` or `assistant`
role, never `system`. -/
theorem historyMessages_role :
    ∀ (h : List String) (i : Nat) (m : Message), m ∈ historyMessages i h →
      m.role = Role.user ∨ m.role = Role.assistant := by
  intro h
  induction h with
  | nil => intro i m hm; simp [historyMessages] at hm
  | cons msg rest ih =>
    intro i m hm
    simp only [historyMessages, List.mem_cons] at hm
    cases hm with
    | inl he =>
      subst he
      by_cases hp : i % 2 = 0
      · left; simp [hp]
      · right; simp [hp]
    | inr ht => exact ih (i + 1) m ht

/-- The emptiness guard on `history` is redundant: the built conversation is
always the system message, the enumerate-loop messages, and the final user
message. -/
theorem buildMessages_some_eq (p : String) (tl : Option String)
    (hs : List String) :
    buildMessages p tl (some hs) =
      systemMessage tl :: (historyMessages 0 hs ++ [⟨Role.user, p⟩]) := by
  cases hs with
  | nil => simp [buildMessages, historyMessages]
  | cons a rest => simp [buildMessages]

/-- The final message of every built conversation is the current prompt with
role `user`. -/
theorem buildMessages_getLast? (p : String) (tl : Option String)
    (h? : Option (List String)) :
    (buildMessages p tl h?).getLast? = some ⟨Role.user, p⟩ := by
  unfold buildMessages
  exact List.getLast?_concat _

/-- The head of every built conversation is the selected system message. -/
theorem buildMessages_head (p : String) (tl : Option String)
    (h? : Option (List String)) :
    (buildMessages p tl h?)[0]? = some (systemMessage tl) := by
  unfold buildMessages
  rw [List.singleton_append, List.cons_append]
  exact List.getElem?_cons_zero

/-- The tail of a built conversation: the history messages (possibly none)
followed by the final user message. -/
theorem buildMessages_tail (p : String) (tl : Option String)
    (h? : Option (List String)) :
    (buildMessages p tl h?).tail =
      (match h? with
       | some h => if h.isEmpty then [] else historyMessages 0 h
       | none => []) ++ [⟨Role.user, p⟩] := by
  unfold buildMessages
  rw [List.singleton_append, List.cons_append]
  rfl

/-- C1: for every generate request with prompt `p`, any `target_lang`, and a
history of length `n`, the constructed conversation has exactly `n + 2`
messages: the system message at index 0, then for each history index `i`
the element verbatim at position `1 + i` with role `user` for even `i` and
`assistant` for odd `i`, and finally `{role: user, content: p}` last. -/
theorem c1_conversation_layout (p : String) (tl : Option String)
    (hs : List String) :
    (buildMessages p tl (some hs)).length = hs.length + 2 ∧
    (buildMessages p tl (some hs))[0]? = some (systemMessage tl) ∧
    (∀ i (h : i < hs.length),
      (buildMessages p tl (some hs))[1 + i]? =
        some ⟨if i % 2 = 0 then Role.user else Role.assistant, hs.get ⟨i, h⟩⟩) ∧
    (buildMessages p tl (some hs)).getLast? = some ⟨Role.user, p⟩ := by
  refine ⟨?_, buildMessages_head p tl (some hs), ?_,
    buildMessages_getLast? p tl (some hs)⟩
  · rw [buildMessages_some_eq]
    simp [historyMessages_length]
  · intro i h
    rw [buildMessages_some_eq, Nat.add_comm 1 i, List.getElem?_cons_succ,
      List.getElem?_append, historyMessages_length, if_pos h,
      historyMessages_getElem?]
    simp only [Nat.zero_add]
    rw [List.getElem?_eq_getElem h]
    simp [List.get_eq_getElem]

/-- Witness for C1 at a concrete request: prompt `"Hi"`, translation target
`"French"`, history `["a", "b"]`; position `1 + 1` holds `"b"` with role
`assistant`. -/
theorem c1_conversation_layout_witness :
    (buildMessages "Hi" (some "French") (some ["a", "b"]))[1 + 1]? =
      some ⟨if 1 % 2 = 0 then Role.user else Role.assistant,
        ["a", "b"].get ⟨1, by decide⟩⟩ :=
  (c1_conversation_layout "Hi" (some "French") ["a", "b"]).2.2.1 1 (by decide)

/-- C8: the system message is the translation message (with `target_lang`
interpolated) exactly when `target_lang` is present and non-empty, and the
fixed default persona otherwise; in both cases it sits at position 0 and no
other message of the conversation has role `system`. -/
theorem c8_system_message_selection :
    (∀ p (h? : Option (List String)) lang, lang ≠ "" →
      (buildMessages p (some lang) h?)[0]? =
        some ⟨Role.system, translationContent lang⟩) ∧
    (∀ p (h? : Option (List String)),
      (buildMessages p none h?)[0]? =
        some ⟨Role.system, defaultSystemContent⟩) ∧
    (∀ p (h? : Option (List String)),
      (buildMessages p (some "") h?)[0]? =
        some ⟨Role.system, defaultSystemContent⟩) ∧
    (∀ p tl (h? : Option (List String)) m,
      m ∈ (buildMessages p tl h?).tail → m.role ≠ Role.system) := by
  refine ⟨?_, ?_, ?_, ?_⟩
  · intro p h? lang hlang
    rw [buildMessages_head]
    have hne : lang.isEmpty = false := by
      cases he : lang.isEmpty with
      | false => rfl
      | true => exact absurd ((String.isEmpty_iff lang).mp he) hlang
    simp [systemMessage, hne]
  · intro p h?
    rw [buildMessages_head]
    rfl
  · intro p h?
    rw [buildMessages_head]
    rfl
  · intro p tl h? m hm
    rw [buildMessages_tail] at hm
    rcases List.mem_append.mp hm with hl | hr
    · cases h? with
      | none => simp at hl
      | some h =>
        have hl' : m ∈ (if h.isEmpty then ([] : List Message)
            else historyMessages 0 h) := hl
        cases he : h.isEmpty with
        | true => rw [he] at hl'; simp at hl'
        | false =>
          rw [he] at hl'
          simp only [Bool.false_eq_true, if_false] at hl'
          rcases historyMessages_role h 0 m hl' with h1 | h1 <;> simp [h1]
    · have hme : m = ⟨Role.user, p⟩ := List.mem_singleton.mp hr
      subst hme
      simp

/-- Witness for C8 at a concrete request: a present, non-empty
`target_lang` of `"German"` puts the translation system message first. -/
theorem c8_system_message_selection_witness :
    (buildMessages "Hi" (some "German") (some []))[0]? =
      some ⟨Role.system, translationContent "German"⟩ :=
  c8_system_message_selection.1 "Hi" (some []) "German" (by decide)

/-- Only the `load_model` branch ever mutates the server object. -/
theorem processLine_state_of_not_load (st : ServerState) (req : Request)
    (o : Oracle) (h1 : req.command ≠ some "load_model") :
    (processLine st (LineInput.request req o)).state = st := by
  simp only [processLine, if_neg h1]
  by_cases h2 : req.command = some "generate"
  · rw [if_pos h2]
    by_cases h3 : st.model = false
    · rw [if_pos h3]
    · rw [if_neg h3]
      cases hg : (generate (req.prompt.getD "") req.target_lang
          (some (req.history.getD [])) (req.max_tokens.getD 128)
          (req.temperature.getD (7 / 10)) o.genResult).1 with
      | raised msg => simp [hg]
      | ok text => simp [hg]
  · rw [if_neg h2]
    by_cases h3 : req.command = some "test"
    · rw [if_pos h3]
    · rw [if_neg h3]
      by_cases h4 : req.command = some "shutdown"
      · rw [if_pos h4]
      · rw [if_neg h4]

/-- The model handle after one line: it stays set once set, and it becomes
set exactly by a `load_model` line whose two `from_pretrained` calls both
return. -/
theorem processLine_state_model (st : ServerState) (l : LineInput) :
    (processLine st l).state.model = (st.model || assignsModel l) := by
  cases l with
  | emptyLine => simp [processLine, assignsModel]
  | badJson d => simp [processLine, assignsModel]
  | nonObjectJson m => simp [processLine, assignsModel]
  | request req o =>
    by_cases h1 : req.command = some "load_model"
    · simp only [processLine, if_pos h1, assignsModel, h1, beq_self_eq_true,
        Bool.true_and]
      simp only [load_model]
      cases o.tokRaises with
      | true => simp
      | false =>
        cases o.modelRaises with
        | true => simp
        | false =>
          cases o.cudaAvailable with
          | true => cases o.toRaises <;> simp
          | false => cases o.toRaises <;> simp
    · have ha : assignsModel (LineInput.request req o) = false := by
        have hb : (req.command == some "load_model") = false :=
          beq_eq_false_iff_ne.mpr h1
        simp [assignsModel, hb]
      rw [ha, Bool.or_false, processLine_state_of_not_load st req o h1]

/-- Only the `shutdown` command breaks the loop. -/
theorem processLine_stop_eq (st : ServerState) (l : LineInput) :
    (processLine st l).stop = isShutdownLine l := by
  cases l with
  | emptyLine => simp [processLine, isShutdownLine]
  | badJson d => simp [processLine, isShutdownLine]
  | nonObjectJson m => simp [processLine, isShutdownLine]
  | request req o =>
    simp only [isShutdownLine]
    by_cases h1 : req.command = some "load_model"
    · simp [processLine, if_pos h1, h1]
    · simp only [processLine, if_neg h1]
      by_cases h2 : req.command = some "generate"
      · rw [if_pos h2]
        by_cases h3 : st.model = false
        · simp [if_pos h3, h2]
        · rw [if_neg h3]
          cases hg : (generate (req.prompt.getD "") req.target_lang
              (some (req.history.getD [])) (req.max_tokens.getD 128)
              (req.temperature.getD (7 / 10)) o.genResult).1 with
          | raised msg => simp [hg, h2]
          | ok text => simp [hg, h2]
      · rw [if_neg h2]
        by_cases h3 : req.command = some "test"
        · simp [if_pos h3, h3]
        · rw [if_neg h3]
          by_cases h4 : req.command = some "shutdown"
          · simp [if_pos h4, h4]
          · have hb : (req.command == some "shutdown") = false :=
              beq_eq_false_iff_ne.mpr h4
            simp [if_neg h4, hb]

/-- A `shutdown` line is not a `load_model` line. -/
theorem assignsModel_of_shutdown (l : LineInput)
    (h : isShutdownLine l = true) : assignsModel l = false := by
  cases l with
  | emptyLine => rfl
  | badJson d => rfl
  | nonObjectJson m => rfl
  | request req o =>
    simp only [isShutdownLine, beq_iff_eq] at h
    simp [assignsModel, h]

/-- The model handle after a whole run: it is set iff it started set or some
processed line (before any `shutdown`) loaded it. -/
theorem runLoop_model (lines : List LineInput) :
    ∀ st : ServerState, (runLoop st lines).1.model =
      (st.model ||
        ((lines.takeWhile fun l => !isShutdownLine l).any assignsModel)) := by
  induction lines with
  | nil => intro st; simp [runLoop]
  | cons l rest ih =>
    intro st
    simp only [runLoop]
    cases hsd : isShutdownLine l with
    | true =>
      have hstop : (processLine st l).stop = true := by
        rw [processLine_stop_eq, hsd]
      rw [if_pos hstop]
      rw [processLine_state_model, assignsModel_of_shutdown l hsd]
      simp [List.takeWhile, hsd]
    | false =>
      have hstop : (processLine st l).stop = false := by
        rw [processLine_stop_eq, hsd]
      rw [if_neg (by rw [hstop]; exact Bool.false_ne_true)]
      rw [ih (processLine st l).state, processLine_state_model]
      simp [List.takeWhile, hsd, Bool.or_assoc]

/-- C3: a `generate` command received while the model is not loaded yields
exactly `{"error": "Model not loaded"}`, makes no backend call, leaves the
state unchanged, and does not break the loop. -/
theorem c3_generate_short_circuit (st : ServerState) (req : Request)
    (o : Oracle) (hc : req.command = some "generate") (hm : st.model = false) :
    processLine st (LineInput.request req o) =
      ⟨st, [Response.errorMsg "Model not loaded"], [], false⟩ := by
  simp [processLine, hc, hm]

/-- Witness for C3: a concrete `generate` request against a fresh server. -/
theorem c3_generate_short_circuit_witness :
    processLine (serverInit "Qwen/Qwen2.5-3B-Instruct" true)
      (LineInput.request ⟨some "generate", some "Hi", none, none, none, none⟩
        ⟨false, false, false, false, PyResult.ok "x"⟩) =
      ⟨serverInit "Qwen/Qwen2.5-3B-Instruct" true,
        [Response.errorMsg "Model not loaded"], [], false⟩ :=
  c3_generate_short_circuit _ _ _ rfl rfl

/-- Counterexample to C4 as stated: a `load_model` command on the CPU path
whose `from_pretrained` calls return but whose `.to(device)` raises reports
`{"status": "failed"}`, yet leaves the model attribute set — `model_loaded`
became true on a `load_model` command that did NOT succeed. -/
theorem c4_counterexample_failed_load_sets_model :
    (serverInit "Qwen/Qwen2.5-3B-Instruct" true).model = false ∧
    (processLine (serverInit "Qwen/Qwen2.5-3B-Instruct" true)
      (LineInput.request ⟨some "load_model", none, none, none, none, none⟩
        ⟨false, false, false, true, PyResult.raised ""⟩)).output =
      [Response.status "failed"] ∧
    (processLine (serverInit "Qwen/Qwen2.5-3B-Instruct" true)
      (LineInput.request ⟨some "load_model", none, none, none, none, none⟩
        ⟨false, false, false, true, PyResult.raised ""⟩)).state.model =
      true := by
  decide

/-- C4 (amended): `model_loaded` is false at process start and, once true,
never reverts to false under any subsequent command until process exit; it
becomes true only during a `load_model` command that gets past both
`from_pretrained` calls — which is every successful load, but also a CPU
load that fails afterwards in `.to(device)`. -/
theorem c4_model_loaded_monotone :
    (serverInit "Qwen/Qwen2.5-3B-Instruct" true).model = false ∧
    (∀ st l, st.model = true → (processLine st l).state.model = true) ∧
    (∀ st lines, st.model = true → (runLoop st lines).1.model = true) ∧
    (∀ st l, (processLine st l).state.model = true →
      st.model = true ∨ assignsModel l = true) := by
  refine ⟨rfl, ?_, ?_, ?_⟩
  · intro st l h
    rw [processLine_state_model, h, Bool.true_or]
  · intro st lines h
    rw [runLoop_model, h, Bool.true_or]
  · intro st l h
    rw [processLine_state_model] at h
    simpa using h

/-- Witness for C4: a loaded server stays loaded across a `test` line. -/
theorem c4_model_loaded_monotone_witness :
    (processLine (⟨"m", true, true, true, some Device.cpu⟩ : ServerState)
      (LineInput.request ⟨some "test", none, none, none, none, none⟩
        ⟨false, false, false, false, PyResult.ok "x"⟩)).state.model = true :=
  c4_model_loaded_monotone.2.1 _ _ rfl

/-- Counterexample to C5 as stated: after a successful load followed by a
failed reload, `test` reports `model_loaded: true`, while the outcome of the
most recent `load_model` command was failure. -/
theorem c5_counterexample_test_after_failed_reload :
    (runLoop (serverInit "Qwen/Qwen2.5-3B-Instruct" true)
      [LineInput.request ⟨some "load_model", none, none, none, none, none⟩
          ⟨true, false, false, false, PyResult.ok ""⟩,
        LineInput.request ⟨some "load_model", none, none, none, none, none⟩
          ⟨true, true, false, false, PyResult.ok ""⟩,
        LineInput.request ⟨some "test", none, none, none, none, none⟩
          ⟨true, false, false, false, PyResult.ok ""⟩]).2 =
      [Response.status "loaded", Response.status "failed",
        Response.testResp true] := by
  decide

/-- C5 (amended): `test` is pure — it emits exactly one response carrying
the current `model_loaded` boolean, changes nothing, makes no backend call
and never breaks the loop — and the boolean it reports equals whether some
earlier `load_model` attempt assigned the model (it is NOT in general the
outcome of the most recent `load_model`, since a later failed load leaves
the model in place). -/
theorem c5_test_pure_and_reports_model_handle :
    (∀ st req o, req.command = some "test" →
      processLine st (LineInput.request req o) =
        ⟨st, [Response.testResp st.model], [], false⟩) ∧
    (∀ lines,
      (runLoop (serverInit "Qwen/Qwen2.5-3B-Instruct" true) lines).1.model =
        ((lines.takeWhile fun l => !isShutdownLine l).any assignsModel)) := by
  constructor
  · intro st req o hc
    simp [processLine, hc]
  · intro lines
    rw [runLoop_model]
    simp [serverInit]

/-- Witness for C5: `test` on a loaded server reports true and changes
nothing. -/
theorem c5_test_pure_witness :
    processLine (⟨"m", true, true, true, some Device.cpu⟩ : ServerState)
      (LineInput.request ⟨some "test", none, none, none, none, none⟩
        ⟨false, false, false, false, PyResult.ok "x"⟩) =
      ⟨⟨"m", true, true, true, some Device.cpu⟩,
        [Response.testResp true], [], false⟩ :=
  c5_test_pure_and_reports_model_handle.1 _ _ _ rfl

/-- C6 (amended): a line that fails JSON decoding is answered with
`{"error": "Invalid JSON: <details>"}` and the loop continues; a line that
decodes to a non-object JSON value is instead answered with the generic
`{"error": "<AttributeError message>"}` of the `request.get` failure, and
the loop likewise continues.  Neither kind of line touches the state or the
backend. -/
theorem c6_invalid_json_vs_non_object :
    (∀ (st : ServerState) (d : String),
      processLine st (LineInput.badJson d) =
        ⟨st, [Response.errorMsg ("Invalid JSON: " ++ d)], [], false⟩) ∧
    (∀ (st : ServerState) (m : String),
      processLine st (LineInput.nonObjectJson m) =
        ⟨st, [Response.errorMsg m], [], false⟩) :=
  ⟨fun _ _ => rfl, fun _ _ => rfl⟩

/-- Counterexample to C6 as stated: the line `[1, 2]` is valid JSON but not
an object; `json.loads` succeeds, `request.get` raises
`AttributeError: 'list' object has no attribute 'get'`, and the emitted
error is that message — it does not carry the `Invalid JSON: ` prefix the
claim requires for every non-object line. -/
theorem c6_counterexample_valid_json_non_object :
    (processLine (serverInit "Qwen/Qwen2.5-3B-Instruct" true)
      (LineInput.nonObjectJson "'list' object has no attribute 'get'")).output
      = [Response.errorMsg "'list' object has no attribute 'get'"] ∧
    ("Invalid JSON: ".data.isPrefixOf
      "'list' object has no attribute 'get'".data) = false ∧
    (processLine (serverInit "Qwen/Qwen2.5-3B-Instruct" true)
      (LineInput.nonObjectJson "'list' object has no attribute 'get'")).stop
      = false := by
  decide

/-- C7: when the backend chain of a `generate` command raises after the
model-loaded check passed, the process emits exactly one response carrying
the exception's message, keeps its state, and continues the loop. -/
theorem c7_generate_exception_recovered (st : ServerState) (req : Request)
    (o : Oracle) (msg : String) (hc : req.command = some "generate")
    (hm : st.model = true) (he : o.genResult = PyResult.raised msg) :
    (processLine st (LineInput.request req o)).output =
      [Response.errorMsg msg] ∧
    (processLine st (LineInput.request req o)).state = st ∧
    (processLine st (LineInput.request req o)).stop = false := by
  refine ⟨?_, ?_, ?_⟩ <;> simp [processLine, hc, hm, he, generate]

/-- Witness for C7: a concrete backend exception `"CUDA out of memory"` is
reported verbatim and the loop goes on. -/
theorem c7_generate_exception_recovered_witness :
    (processLine (⟨"m", true, true, true, some Device.cpu⟩ : ServerState)
      (LineInput.request ⟨some "generate", some "Hi", none, none, none, none⟩
        ⟨false, false, false, false,
          PyResult.raised "CUDA out of memory"⟩)).output =
      [Response.errorMsg "CUDA out of memory"] :=
  (c7_generate_exception_recovered _ _ _ _ rfl rfl rfl).1

/-- C9: the backend generation call sets `do_sample` to true exactly when
the temperature is strictly positive — both at the `generate` level and for
the call recorded while processing a `generate` request (whose temperature
is the request's, defaulting to 0.7). -/
theorem c9_do_sample_iff_positive_temperature :
    (∀ (p : String) (tl : Option String) (hs : Option (List String))
        (mt : Int) (temp : ℚ) (b : PyResult String),
      ((generate p tl hs mt temp b).2.do_sample = true) ↔ 0 < temp) ∧
    (∀ (st : ServerState) (req : Request) (o : Oracle) (c : GenCall),
      (processLine st (LineInput.request req o)).calls = [Call.gen c] →
      (c.do_sample = true ↔ 0 < req.temperature.getD (7 / 10))) := by
  constructor
  · intro p tl hs mt temp b
    cases b <;> simp [generate]
  · intro st req o c h
    by_cases h1 : req.command = some "load_model"
    · simp [processLine, h1] at h
    · by_cases h2 : req.command = some "generate"
      · by_cases h3 : st.model = false
        · simp [processLine, h1, h2, h3] at h
        · cases hb : o.genResult with
          | raised msg =>
            simp [processLine, h1, h2, h3, hb, generate] at h
            subst h
            simp
          | ok t =>
            simp [processLine, h1, h2, h3, hb, generate] at h
            subst h
            simp
      · by_cases h3 : req.command = some "test"
        · simp [processLine, h1, h2, h3] at h
        · by_cases h4 : req.command = some "shutdown"
          · simp [processLine, h1, h2, h3, h4] at h
          · simp [processLine, h1, h2, h3, h4] at h

/-- Witness for C9: a concrete `generate` request without a temperature
field records a call whose `do_sample` is governed by the default 0.7. -/
theorem c9_do_sample_witness :
    ((generate "Hi" none (some []) 128 (7 / 10)
        (PyResult.ok "x")).2.do_sample = true) ↔
      (0 : ℚ) < (none : Option ℚ).getD (7 / 10) :=
  c9_do_sample_iff_positive_temperature.2
    ⟨"m", true, true, true, some Device.cpu⟩
    ⟨some "generate", some "Hi", none, none, none, none⟩
    ⟨false, false, false, false, PyResult.ok "x"⟩ _ rfl

/-- C10: a `generate` request without a `prompt` field is not rejected: the
prompt defaults to `""`, the backend call is made with a conversation whose
final user message has empty content, and a successful backend run produces
a normal success response. -/
theorem c10_missing_prompt_defaults_empty (st : ServerState) (req : Request)
    (o : Oracle) (hc : req.command = some "generate") (hm : st.model = true)
    (hp : req.prompt = none) :
    (∃ c, (processLine st (LineInput.request req o)).calls = [Call.gen c] ∧
      c.messages.getLast? = some ⟨Role.user, ""⟩) ∧
    (∀ t, o.genResult = PyResult.ok t →
      (processLine st (LineInput.request req o)).output =
        [Response.textResp (String.mk (extractResponse t.data))]) := by
  constructor
  · cases hb : o.genResult with
    | raised msg =>
      refine ⟨(generate (req.prompt.getD "") req.target_lang
        (some (req.history.getD [])) (req.max_tokens.getD 128)
        (req.temperature.getD (7 / 10)) (PyResult.raised msg)).2, ?_, ?_⟩
      · simp [processLine, hc, hm, hb, generate]
      · simp [generate, hp, buildMessages_getLast?]
    | ok t =>
      refine ⟨(generate (req.prompt.getD "") req.target_lang
        (some (req.history.getD [])) (req.max_tokens.getD 128)
        (req.temperature.getD (7 / 10)) (PyResult.ok t)).2, ?_, ?_⟩
      · simp [processLine, hc, hm, hb, generate]
      · simp [generate, hp, buildMessages_getLast?]
  · intro t ht
    simp [processLine, hc, hm, ht, generate]

/-- Witness for C10: a concrete prompt-less `generate` request against a
loaded server. -/
theorem c10_missing_prompt_witness :
    ∃ c, (processLine (⟨"m", true, true, true, some Device.cpu⟩ : ServerState)
      (LineInput.request ⟨some "generate", none, none, none, none, none⟩
        ⟨false, false, false, false, PyResult.ok "full text"⟩)).calls =
      [Call.gen c] ∧ c.messages.getLast? = some ⟨Role.user, ""⟩ :=
  (c10_missing_prompt_defaults_empty _ _ _ rfl rfl rfl).1
